import Mathlib

/-!
Shallow embedding of the RoBO acquisition functions LogEI
(robo/acquisition/LogEI.py) and PI (robo/acquisition/PI.py), together with
proofs about the specification claims.

NumPy arrays of doubles are modelled as lists of real numbers.  The float
minus-infinity produced by the degenerate LogEI branches is modelled by the
bottom element of EReal, and the IEEE division-by-zero semantics reached by
PI when the predictive standard deviation is zero is modelled by the
extended value type RF below.
-/

open MeasureTheory Set Filter Topology

namespace RoBO

/-- Standard normal density, the function scipy.stats.norm.pdf computes. -/
noncomputable def normpdf (z : ℝ) : ℝ := Real.exp (-(z ^ 2) / 2) / Real.sqrt (2 * Real.pi)

/-- Standard normal CDF, the function scipy.stats.norm.cdf computes. -/
noncomputable def normcdf (z : ℝ) : ℝ := ∫ t in Iic z, normpdf t

/-- scipy.stats.norm.logpdf: the logarithm of the standard normal density. -/
noncomputable def normlogpdf (z : ℝ) : ℝ := Real.log (normpdf z)

/-- scipy.stats.norm.logcdf: the logarithm of the standard normal CDF. -/
noncomputable def normlogcdf (z : ℝ) : ℝ := Real.log (normcdf z)

/-- np.finfo(np.float).max, the largest IEEE double, as a real number. -/
def floatMax : ℝ := (2 ^ 53 - 1) * 2 ^ 971

/-- Error outcomes of the two call methods: the two
BayesianOptimizationError codes raised explicitly by the source
(NO_DERIVATIVE, SINGLE_INPUT_ONLY), and the Python UnboundLocalError reached
at the end of PI.__call__ when return_f was never assigned. -/
inductive BOErr
  | NO_DERIVATIVE
  | SINGLE_INPUT_ONLY
  | UNBOUND_LOCAL
  deriving DecidableEq

/-- np.any(X < X_lower): some coordinate of some row of X is strictly below
the corresponding coordinate of the lower bound vector. -/
def anyBelow (X : List (List ℝ)) (lower : List ℝ) : Prop :=
  ∃ row ∈ X, ∃ p ∈ row.zip lower, p.1 < p.2

/-- np.any(X > X_upper): some coordinate strictly above the upper bound. -/
def anyAbove (X : List (List ℝ)) (upper : List ℝ) : Prop :=
  ∃ row ∈ X, ∃ p ∈ row.zip upper, p.2 < p.1

/-- The bounds-guard condition shared by LogEI.__call__ and PI.__call__. -/
def outOfBounds (lower upper : List ℝ) (X : List (List ℝ)) : Prop :=
  anyBelow X lower ∨ anyAbove X upper

/-- The surrogate-model collaborator as used by LogEI.__call__: predict
returns per-candidate mean and variance vectors and getCurrentBest the
incumbent eta.  ζ is the type of the optional instance features Z. -/
structure GPModel (ζ : Type) where
  predict : List (List ℝ) → ζ → List ℝ × List ℝ
  getCurrentBest : ℝ

/-- Body of the per-candidate loop of LogEI.__call__
(robo/acquisition/LogEI.py lines 76-110), with mu = m[i],
sigma = s[i] = sqrt(v[i]) and z[i] = (eta - mu)/sigma - par.  The float
value -inf is modelled by the bottom element of EReal. -/
noncomputable def logEIEntry (par eta mu sigma : ℝ) : EReal :=
  let z : ℝ := (eta - mu) / sigma - par
  let par_s : ℝ := par * sigma
  if |eta - mu - par_s| = 0 then
    if 0 < sigma then ((Real.log sigma + normlogpdf z : ℝ) : EReal) else ⊥
  else if sigma = 0 then
    if mu < eta - par_s then ((Real.log (eta - mu - par_s) : ℝ) : EReal) else ⊥
  else
    let b : ℝ := Real.log sigma + normlogpdf z
    if eta - par_s > mu then
      let a : ℝ := Real.log (eta - mu - par_s) + normlogcdf z
      ((max a b + Real.log (1 + Real.exp (-|b - a|)) : ℝ) : EReal)
    else
      let a : ℝ := Real.log (mu - eta + par_s) + normlogcdf z
      if a ≥ b then ⊥
      else ((b + Real.log (1 - Real.exp (a - b)) : ℝ) : EReal)

/-- The log_ei vector assembled by LogEI.__call__, one entry per candidate. -/
noncomputable def logEIVec (par eta : ℝ) (m v : List ℝ) : List EReal :=
  (m.zip v).map fun p => logEIEntry par eta p.1 (Real.sqrt p.2)

open Classical in
/-- LogEI.__call__: derivative guard, bounds guard, then the per-candidate
log-EI loop; the (size,1) result array is modelled as a list of singleton
rows. -/
noncomputable def LogEIcall {ζ : Type} (par : ℝ) (lower upper : List ℝ)
    (model : GPModel ζ) (X : List (List ℝ)) (Z : ζ) (derivative : Bool) :
    Except BOErr (List (List EReal)) :=
  if derivative then .error .NO_DERIVATIVE
  else if outOfBounds lower upper X then .ok [[((-floatMax : ℝ) : EReal)]]
  else
    let mv := model.predict X Z
    .ok ((logEIVec par model.getCurrentBest mv.1 mv.2).map fun e => [e])

/-- IEEE-754 style extended value: the PI pipeline divides by a possibly
zero standard deviation, producing double infinities or NaN as NumPy does. -/
inductive RF
  | fin (x : ℝ)
  | pinf
  | ninf
  | nan

/-- IEEE division of a finite double by a possibly zero finite double. -/
noncomputable def fdiv (x y : ℝ) : RF :=
  if y = 0 then (if 0 < x then .pinf else if x < 0 then .ninf else .nan)
  else .fin (x / y)

/-- scipy.stats.norm.cdf extended to infinities and NaN as NumPy evaluates
it: cdf(+inf) = 1, cdf(-inf) = 0, cdf(NaN) = NaN. -/
noncomputable def cdfRF : RF → RF
  | .fin x => .fin (normcdf x)
  | .pinf => .fin 1
  | .ninf => .fin 0
  | .nan => .nan

/-- scipy.stats.norm.pdf extended to infinities and NaN. -/
noncomputable def pdfRF : RF → RF
  | .fin x => .fin (normpdf x)
  | .pinf => .fin 0
  | .ninf => .fin 0
  | .nan => .nan

/-- IEEE addition on extended values. -/
noncomputable def RF.add : RF → RF → RF
  | .fin x, .fin y => .fin (x + y)
  | .fin _, .pinf => .pinf
  | .fin _, .ninf => .ninf
  | .pinf, .fin _ => .pinf
  | .pinf, .pinf => .pinf
  | .ninf, .fin _ => .ninf
  | .ninf, .ninf => .ninf
  | _, _ => .nan

/-- IEEE multiplication on extended values. -/
noncomputable def RF.mul : RF → RF → RF
  | .fin x, .fin y => .fin (x * y)
  | .fin x, .pinf => if 0 < x then .pinf else if x < 0 then .ninf else .nan
  | .fin x, .ninf => if 0 < x then .ninf else if x < 0 then .pinf else .nan
  | .pinf, .fin y => if 0 < y then .pinf else if y < 0 then .ninf else .nan
  | .ninf, .fin y => if 0 < y then .ninf else if y < 0 then .pinf else .nan
  | .pinf, .pinf => .pinf
  | .pinf, .ninf => .ninf
  | .ninf, .pinf => .ninf
  | .ninf, .ninf => .pinf
  | _, _ => .nan

/-- IEEE division of an extended value by a finite double. -/
noncomputable def RF.rdiv : RF → ℝ → RF
  | .fin x, y => fdiv x y
  | .pinf, y => if y < 0 then .ninf else .pinf
  | .ninf, y => if y < 0 then .pinf else .ninf
  | .nan, _ => .nan

/-- The mean/variance pair returned by the PI model collaborator.  NumPy
lets the model return either one-dimensional arrays (shape (k,)) or column
arrays (shape (k,1)); PI.__call__ distinguishes the two shapes just before
its return statement. -/
inductive PredictOut
  | d1 (m v : List ℝ)
  | d2 (m v : List (List ℝ))

/-- The surrogate-model collaborator as used by PI.__call__.  The
predictive gradients are modelled post-indexing: the two lists are dmdx[0]
and ds2dx[0] flattened, one entry per input dimension. -/
structure PIModel (ζ : Type) where
  predict : List (List ℝ) → ζ → PredictOut
  getCurrentBest : ℝ
  predictive_gradients : List (List ℝ) → List ℝ × List ℝ

/-- z = (eta - m - par) / s, elementwise with IEEE division. -/
noncomputable def piZ (par eta : ℝ) (m s : List ℝ) : List RF :=
  (m.zip s).map fun p => fdiv (eta - p.1 - par) p.2

instance : Inhabited RF := ⟨RF.nan⟩

open Classical in
/-- PI.__call__: batch guard, bounds guard, then f = norm.cdf(z) and the
optional derivative.  return_f is assigned only when f is one-dimensional,
so a two-dimensional predictive mean reaches the final return statement
with return_f unbound (a Python UnboundLocalError). -/
noncomputable def PIcall {ζ : Type} (par : ℝ) (lower upper : List ℝ)
    (model : PIModel ζ) (X : List (List ℝ)) (Z : ζ) (derivative : Bool) :
    Except BOErr (List (List RF) × Option (List (List (List RF)))) :=
  if 1 < X.length then .error .SINGLE_INPUT_ONLY
  else if outOfBounds lower upper X then
    if derivative then .ok ([[.fin 0]], some [[List.replicate X.headI.length (.fin 0)]])
    else .ok ([[.fin 0]], none)
  else
    match model.predict X Z with
    | .d1 m v =>
      let s := v.map Real.sqrt
      let z := piZ par model.getCurrentBest m s
      let f := z.map cdfRF
      if derivative then
        let g := model.predictive_gradients X
        let s0 := s.headI
        let z0 := z.headI
        let df := (g.1.zip g.2).map fun p =>
          RF.mul ((pdfRF z0).rdiv s0) (RF.add (.fin p.1) (RF.mul (fdiv p.2 (2 * s0)) z0))
        .ok ([f], some [[df]])
      else .ok ([f], none)
    | .d2 _ _ => .error .UNBOUND_LOCAL

/-- Modelled from the spec: the plain-space Expected Improvement
EI = (eta - m - par*s) * Phi(z) + s * phi(z) with z = (eta - m)/s - par,
the quantity whose logarithm LogEI is claimed to compute. -/
noncomputable def EIplain (par eta mu sigma : ℝ) : ℝ :=
  (eta - mu - par * sigma) * normcdf ((eta - mu) / sigma - par)
    + sigma * normpdf ((eta - mu) / sigma - par)

/-- Helper: z * Phi(z) + phi(z).  Since the coefficient eta - mu - par*sigma
equals sigma * z, the Expected Improvement is sigma * normg z. -/
noncomputable def normg (z : ℝ) : ℝ := z * normcdf z + normpdf z

lemma logEIcall_out {ζ : Type} (par : ℝ) (lower upper : List ℝ)
    (model : GPModel ζ) (X : List (List ℝ)) (Z : ζ)
    (hout : outOfBounds lower upper X) :
    LogEIcall par lower upper model X Z false = .ok [[((-floatMax : ℝ) : EReal)]] := by
  simp [LogEIcall, if_pos hout]

lemma logEIcall_in {ζ : Type} (par : ℝ) (lower upper : List ℝ)
    (model : GPModel ζ) (X : List (List ℝ)) (Z : ζ)
    (hin : ¬ outOfBounds lower upper X) :
    LogEIcall par lower upper model X Z false =
      .ok ((logEIVec par model.getCurrentBest
        (model.predict X Z).1 (model.predict X Z).2).map fun e => [e]) := by
  simp [LogEIcall, if_neg hin]

lemma piCall_batch {ζ : Type} (par : ℝ) (lower upper : List ℝ)
    (model : PIModel ζ) (X : List (List ℝ)) (Z : ζ) (derivative : Bool)
    (hX : 1 < X.length) :
    PIcall par lower upper model X Z derivative = .error .SINGLE_INPUT_ONLY := by
  simp [PIcall, if_pos hX]

lemma piCall_out_noderiv {ζ : Type} (par : ℝ) (lower upper : List ℝ)
    (model : PIModel ζ) (X : List (List ℝ)) (Z : ζ)
    (hX : ¬ 1 < X.length) (hout : outOfBounds lower upper X) :
    PIcall par lower upper model X Z false = .ok ([[RF.fin 0]], none) := by
  simp [PIcall, if_neg hX, if_pos hout]

lemma piCall_out_deriv {ζ : Type} (par : ℝ) (lower upper : List ℝ)
    (model : PIModel ζ) (X : List (List ℝ)) (Z : ζ)
    (hX : ¬ 1 < X.length) (hout : outOfBounds lower upper X) :
    PIcall par lower upper model X Z true =
      .ok ([[RF.fin 0]], some [[List.replicate X.headI.length (RF.fin 0)]]) := by
  simp [PIcall, if_neg hX, if_pos hout]

lemma piCall_in_d1 {ζ : Type} (par : ℝ) (lower upper : List ℝ)
    (model : PIModel ζ) (X : List (List ℝ)) (Z : ζ) (m v : List ℝ)
    (hX : ¬ 1 < X.length) (hin : ¬ outOfBounds lower upper X)
    (hpred : model.predict X Z = .d1 m v) :
    PIcall par lower upper model X Z false =
      .ok ([(piZ par model.getCurrentBest m (v.map Real.sqrt)).map cdfRF], none) := by
  simp [PIcall, if_neg hX, if_neg hin, hpred]

lemma piCall_in_d2 {ζ : Type} (par : ℝ) (lower upper : List ℝ)
    (model : PIModel ζ) (X : List (List ℝ)) (Z : ζ) (m v : List (List ℝ))
    (derivative : Bool)
    (hX : ¬ 1 < X.length) (hin : ¬ outOfBounds lower upper X)
    (hpred : model.predict X Z = .d2 m v) :
    PIcall par lower upper model X Z derivative = .error .UNBOUND_LOCAL := by
  simp [PIcall, if_neg hX, if_neg hin, hpred]

/-- Claim C3: calling LogEI with derivative=True raises NO_DERIVATIVE for
every input, bounds, model and Z; the result depends on none of them, so the
error precedes the bounds check, any model call and any numeric work. -/
theorem claim_C3_derivative_guard {ζ : Type} (par : ℝ) (lower upper : List ℝ)
    (model : GPModel ζ) (X : List (List ℝ)) (Z : ζ) :
    LogEIcall par lower upper model X Z true = .error .NO_DERIVATIVE := by
  simp [LogEIcall]

/-- Claim C4: PI with a batch of more than one row raises SINGLE_INPUT_ONLY
for every bounds configuration, model, Z and derivative flag, so the error
precedes the bounds check and any model call. -/
theorem claim_C4_batch_guard {ζ : Type} (par : ℝ) (lower upper : List ℝ)
    (model : PIModel ζ) (X : List (List ℝ)) (Z : ζ) (derivative : Bool)
    (hX : 1 < X.length) :
    PIcall par lower upper model X Z derivative = .error .SINGLE_INPUT_ONLY :=
  piCall_batch par lower upper model X Z derivative hX

/-- Witness for claim C4 at a concrete two-row batch. -/
theorem claim_C4_witness :
    1 < ([[0], [1]] : List (List ℝ)).length ∧
      PIcall 0.1 [0] [1] (⟨fun _ _ => .d1 [] [], 0, fun _ => ([], [])⟩ : PIModel Unit)
        [[0], [1]] () false = .error .SINGLE_INPUT_ONLY :=
  ⟨by norm_num,
    claim_C4_batch_guard 0.1 [0] [1] _ [[0], [1]] () false (by norm_num)⟩

/-- Claim C9: whenever some row of the batch is out of bounds, LogEI returns
a 1-by-1 array holding the negated largest double, whatever the batch size. -/
theorem claim_C9_sentinel_shape {ζ : Type} (par : ℝ) (lower upper : List ℝ)
    (model : GPModel ζ) (X : List (List ℝ)) (Z : ζ)
    (hout : outOfBounds lower upper X) :
    ∃ L, LogEIcall par lower upper model X Z false = .ok L ∧
      L = [[((-floatMax : ℝ) : EReal)]] ∧ L.length = 1 :=
  ⟨[[((-floatMax : ℝ) : EReal)]],
    logEIcall_out par lower upper model X Z hout, rfl, rfl⟩

/-- Witness for claim C9: a three-row batch whose first row is out of
bounds still produces a single-row result. -/
theorem claim_C9_witness :
    outOfBounds [0] [1] [[2], [0.5], [0.5]] ∧
      ([[2], [0.5], [0.5]] : List (List ℝ)).length = 3 ∧
      (∃ L, LogEIcall 0.01 [0] [1] (⟨fun _ _ => ([], []), 0⟩ : GPModel Unit)
          [[2], [0.5], [0.5]] () false = .ok L ∧
        L = [[((-floatMax : ℝ) : EReal)]] ∧ L.length = 1) := by
  have hout : outOfBounds [0] [1] [[2], [0.5], [0.5]] := by
    right
    exact ⟨[2], by simp, (2, 1), by simp, by norm_num⟩
  exact ⟨hout, by norm_num,
    claim_C9_sentinel_shape 0.01 [0] [1] _ [[2], [0.5], [0.5]] () hout⟩

/-- Claim C2 as stated is false: a two-row batch that is out of bounds makes
PI raise SINGLE_INPUT_ONLY (the batch guard runs first), instead of
returning the zero score the claim promises for every out-of-bounds batch. -/
theorem claim_C2_counterexample :
    outOfBounds [0] [1] [[2], [2]] ∧
      PIcall 0.1 [0] [1] (⟨fun _ _ => .d1 [] [], 0, fun _ => ([], [])⟩ : PIModel Unit)
        [[2], [2]] () false = .error .SINGLE_INPUT_ONLY ∧
      PIcall 0.1 [0] [1] (⟨fun _ _ => .d1 [] [], 0, fun _ => ([], [])⟩ : PIModel Unit)
        [[2], [2]] () false ≠ .ok ([[RF.fin 0]], none) := by
  have hout : outOfBounds [0] [1] [[2], [2]] := by
    right
    exact ⟨[2], by simp, (2, 1), by simp, by norm_num⟩
  have hcall := piCall_batch 0.1 [0] [1]
    (⟨fun _ _ => .d1 [] [], 0, fun _ => ([], [])⟩ : PIModel Unit)
    [[2], [2]] () false (by norm_num)
  exact ⟨hout, hcall, by rw [hcall]; simp⟩

/-- Claim C2, amended: for an out-of-bounds batch, LogEI (derivative=False)
returns the negated largest double and PI — provided the batch has at most
one row, since the batch-size guard fires first otherwise — returns zero,
plus a zero gradient when derivative=True.  The results hold for every
model, so no model method influences them. -/
theorem claim_C2_bounds_rejection {ζ ζ' : Type} (parL parP : ℝ)
    (lower upper : List ℝ) (X : List (List ℝ))
    (hout : outOfBounds lower upper X) :
    (∀ (model : GPModel ζ) (Z : ζ),
      LogEIcall parL lower upper model X Z false =
        .ok [[((-floatMax : ℝ) : EReal)]]) ∧
    (∀ (model : PIModel ζ') (Z : ζ'), ¬ 1 < X.length →
      PIcall parP lower upper model X Z false = .ok ([[RF.fin 0]], none) ∧
      PIcall parP lower upper model X Z true =
        .ok ([[RF.fin 0]], some [[List.replicate X.headI.length (RF.fin 0)]])) :=
  ⟨fun model Z => logEIcall_out parL lower upper model X Z hout,
   fun model Z hX =>
    ⟨piCall_out_noderiv parP lower upper model X Z hX hout,
     piCall_out_deriv parP lower upper model X Z hX hout⟩⟩

/-- Witness for the amended claim C2 at a one-row out-of-bounds batch. -/
theorem claim_C2_witness :
    outOfBounds [0] [1] [[2]] ∧
      LogEIcall 0.01 [0] [1] (⟨fun _ _ => ([], []), 0⟩ : GPModel Unit)
        [[2]] () false = .ok [[((-floatMax : ℝ) : EReal)]] ∧
      PIcall 0.1 [0] [1] (⟨fun _ _ => .d1 [] [], 0, fun _ => ([], [])⟩ : PIModel Unit)
        [[2]] () false = .ok ([[RF.fin 0]], none) ∧
      PIcall 0.1 [0] [1] (⟨fun _ _ => .d1 [] [], 0, fun _ => ([], [])⟩ : PIModel Unit)
        [[2]] () true = .ok ([[RF.fin 0]], some [[List.replicate 1 (RF.fin 0)]]) := by
  have hout : outOfBounds [0] [1] [[2]] := by
    right
    exact ⟨[2], by simp, (2, 1), by simp, by norm_num⟩
  have h := @claim_C2_bounds_rejection Unit Unit 0.01 0.1 [0] [1] [[2]] hout
  have h2 := h.2 (⟨fun _ _ => .d1 [] [], 0, fun _ => ([], [])⟩ : PIModel Unit) ()
    (by norm_num)
  exact ⟨hout, h.1 (⟨fun _ _ => ([], []), 0⟩ : GPModel Unit) (), h2.1, h2.2⟩

/-- Claim C6 as stated is false at the boundary: with zero variance and
eta - m - par = 0 the code computes z = 0/0 = NaN and norm.cdf(NaN) = NaN,
so PI returns NaN, not the 0 the claim asserts for the boundary case. -/
theorem claim_C6_counterexample :
    PIcall 0.1 [0] [1]
        (⟨fun _ _ => .d1 [-0.1] [0], 0, fun _ => ([], [])⟩ : PIModel Unit)
        [[0.5]] () false = .ok ([[RF.nan]], none) ∧
      (.ok ([[RF.nan]], none) :
          Except BOErr (List (List RF) × Option (List (List (List RF)))))
        ≠ .ok ([[RF.fin 0]], none) := by
  constructor
  · have hin : ¬ outOfBounds [0] [1] [[0.5]] := by
      simp [outOfBounds, anyBelow, anyAbove]
      norm_num
    have h := piCall_in_d1 0.1 [0] [1]
      (⟨fun _ _ => .d1 [-0.1] [0], 0, fun _ => ([], [])⟩ : PIModel Unit)
      [[0.5]] () [-0.1] [0] (by norm_num) hin rfl
    rw [h]
    have : (0 : ℝ) - (-0.1) - 0.1 = 0 := by norm_num
    simp [piZ, fdiv, Real.sqrt_zero, this, cdfRF]
  · simp

/-- Claim C6, amended: with zero variance PI returns 1 when
eta - m - par > 0 and 0 when eta - m - par < 0, but NaN — not 0 — at the
boundary eta - m - par = 0 (the code evaluates cdf(0/0) = cdf(NaN)). -/
theorem claim_C6_pi_zero_variance {ζ : Type} (par : ℝ) (lower upper : List ℝ)
    (X : List (List ℝ)) (Z : ζ) (eta mu : ℝ)
    (g : List (List ℝ) → List ℝ × List ℝ)
    (hX : ¬ 1 < X.length) (hin : ¬ outOfBounds lower upper X) :
    PIcall par lower upper (⟨fun _ _ => .d1 [mu] [0], eta, g⟩ : PIModel ζ)
        X Z false =
      .ok ([[if 0 < eta - mu - par then RF.fin 1
             else if eta - mu - par < 0 then RF.fin 0 else RF.nan]], none) := by
  have h := piCall_in_d1 par lower upper
    (⟨fun _ _ => .d1 [mu] [0], eta, g⟩ : PIModel ζ) X Z [mu] [0] hX hin rfl
  rw [h]
  simp only [piZ, List.map_cons, List.map_nil, List.zip_cons_cons, List.zip_nil_right,
    Real.sqrt_zero, fdiv]
  split_ifs with h0 h1 <;> simp_all [cdfRF]

/-- Witness for the amended claim C6, in its strictly-positive case. -/
theorem claim_C6_witness :
    ¬ 1 < ([[0.5]] : List (List ℝ)).length ∧
      ¬ outOfBounds [0] [1] [[0.5]] ∧
      PIcall 0.1 [0] [1]
          (⟨fun _ _ => .d1 [-5] [0], 0, fun _ => ([], [])⟩ : PIModel Unit)
          [[0.5]] () false =
        .ok ([[if 0 < (0 : ℝ) - (-5) - 0.1 then RF.fin 1
               else if (0 : ℝ) - (-5) - 0.1 < 0 then RF.fin 0 else RF.nan]], none) := by
  have hin : ¬ outOfBounds [0] [1] [[0.5]] := by
    simp [outOfBounds, anyBelow, anyAbove]
    norm_num
  exact ⟨by norm_num, hin,
    claim_C6_pi_zero_variance 0.1 [0] [1] [[0.5]] () 0 (-5) _ (by norm_num) hin⟩

lemma notOut_concrete : ¬ outOfBounds [-10] [10] [[0]] := by
  simp [outOfBounds, anyBelow, anyAbove]

lemma logEIEntry_sigma_zero (par eta mu : ℝ) (hc : eta - mu - par * 0 ≠ 0) :
    logEIEntry par eta mu 0 =
      (if 0 < eta - mu - par * 0
       then ((Real.log (eta - mu - par * 0) : ℝ) : EReal)
       else (⊥ : EReal)) := by
  rw [logEIEntry]
  split_ifs <;> first
    | rfl
    | linarith
    | simp_all [abs_eq_zero]

/-- Claim C7 as stated is false: at m=[-5], v=[0], eta=0, par=0.01 the
zero-variance branch returns log(eta - mu - par*sigma) = log(5), because
par*sigma = 0.01*0 = 0; the claimed value log(4.99) differs from it. -/
theorem claim_C7_counterexample :
    LogEIcall 0.01 [-10] [10] (⟨fun _ _ => ([-5], [0]), 0⟩ : GPModel Unit)
        [[0]] () false = .ok [[((Real.log 5 : ℝ) : EReal)]] ∧
      ((Real.log 4.99 : ℝ) : EReal) ≠ ((Real.log 5 : ℝ) : EReal) := by
  constructor
  · rw [logEIcall_in 0.01 [-10] [10] _ [[0]] () notOut_concrete]
    simp only [logEIVec, List.zip_cons_cons, List.zip_nil_right, List.map_cons,
      List.map_nil, Real.sqrt_zero]
    rw [logEIEntry_sigma_zero 0.01 0 (-5) (by norm_num)]
    norm_num
  · intro h
    rw [EReal.coe_eq_coe_iff] at h
    have : Real.log 4.99 < Real.log 5 := Real.log_lt_log (by norm_num) (by norm_num)
    linarith

/-- Claim C7, amended: at m=[-5], v=[0], eta=0, par=0.01 LogEI returns
log(5) (not log(4.99)) and PI returns 1. -/
theorem claim_C7_scenario :
    LogEIcall 0.01 [-10] [10] (⟨fun _ _ => ([-5], [0]), 0⟩ : GPModel Unit)
        [[0]] () false = .ok [[((Real.log 5 : ℝ) : EReal)]] ∧
      PIcall 0.01 [-10] [10]
          (⟨fun _ _ => .d1 [-5] [0], 0, fun _ => ([], [])⟩ : PIModel Unit)
          [[0]] () false = .ok ([[RF.fin 1]], none) := by
  constructor
  · rw [logEIcall_in 0.01 [-10] [10] _ [[0]] () notOut_concrete]
    simp only [logEIVec, List.zip_cons_cons, List.zip_nil_right, List.map_cons,
      List.map_nil, Real.sqrt_zero]
    rw [logEIEntry_sigma_zero 0.01 0 (-5) (by norm_num)]
    norm_num
  · rw [piCall_in_d1 0.01 [-10] [10] _ [[0]] () [-5] [0] (by norm_num)
      notOut_concrete rfl]
    simp only [piZ, List.map_cons, List.map_nil, List.zip_cons_cons,
      List.zip_nil_right, Real.sqrt_zero, fdiv]
    norm_num [cdfRF]

/-- Claim C5: with an in-bounds batch, v[i] = 0 and a nonzero coefficient
eta - m[i] - par*sigma, the i-th LogEI result is log(eta - m[i] - par*sigma)
when that quantity is positive and -inf otherwise, i.e. the log of
max(eta - m[i] - par*sigma, 0). -/
theorem claim_C5_logei_zero_variance {ζ : Type} (par : ℝ) (lower upper : List ℝ)
    (X : List (List ℝ)) (Z : ζ) (eta : ℝ) (m v : List ℝ)
    (hin : ¬ outOfBounds lower upper X) (i : ℕ)
    (him : i < m.length) (hiv : i < v.length)
    (hI : i < (logEIVec par eta m v).length)
    (hv : v[i] = 0) (hc : eta - m[i] - par * Real.sqrt v[i] ≠ 0) :
    LogEIcall par lower upper (⟨fun _ _ => (m, v), eta⟩ : GPModel ζ) X Z false =
      .ok ((logEIVec par eta m v).map fun e => [e]) ∧
    (logEIVec par eta m v)[i] =
      (if 0 < eta - m[i] - par * Real.sqrt v[i]
       then ((Real.log (eta - m[i] - par * Real.sqrt v[i]) : ℝ) : EReal)
       else (⊥ : EReal)) := by
  constructor
  · exact logEIcall_in par lower upper _ X Z hin
  · rw [hv, Real.sqrt_zero] at hc ⊢
    simp only [logEIVec, List.getElem_map, List.getElem_zip, hv, Real.sqrt_zero]
    exact logEIEntry_sigma_zero par eta (m[i]) hc

/-- Witness for claim C5 at the concrete zero-variance scenario. -/
theorem claim_C5_witness :
    ¬ outOfBounds [-10] [10] [[0]] ∧ ((0 : ℝ) - (-5) - 0.01 * Real.sqrt 0 ≠ 0) ∧
      LogEIcall 0.01 [-10] [10] (⟨fun _ _ => ([-5], [0]), 0⟩ : GPModel Unit)
        [[0]] () false = .ok ((logEIVec 0.01 0 [-5] [0]).map fun e => [e]) ∧
      (logEIVec 0.01 0 [-5] [0])[0] = ((Real.log 5 : ℝ) : EReal) := by
  have h := claim_C5_logei_zero_variance 0.01 [-10] [10] [[0]] () 0 [-5] [0]
    notOut_concrete 0 (by norm_num) (by norm_num) (by simp [logEIVec]) rfl
    (by simp only [List.getElem_cons_zero, Real.sqrt_zero]; norm_num)
  refine ⟨notOut_concrete, by rw [Real.sqrt_zero]; norm_num, h.1, ?_⟩
  rw [h.2]
  simp only [List.getElem_cons_zero, Real.sqrt_zero]
  norm_num

/-- Claim C10: for an in-bounds single-row call without derivative, PI
returns a wrapped score exactly when the model mean/variance come back
one-dimensional; a two-dimensional predictive mean leaves return_f
unassigned and the call fails with the unbound-local error. -/
theorem claim_C10_pi_unbound_local {ζ : Type} (par : ℝ) (lower upper : List ℝ)
    (X : List (List ℝ)) (Z : ζ) (eta : ℝ)
    (g : List (List ℝ) → List ℝ × List ℝ)
    (hX : ¬ 1 < X.length) (hin : ¬ outOfBounds lower upper X) :
    (∀ m v : List ℝ,
      PIcall par lower upper (⟨fun _ _ => .d1 m v, eta, g⟩ : PIModel ζ) X Z false =
        .ok ([(piZ par eta m (v.map Real.sqrt)).map cdfRF], none)) ∧
    (∀ (m v : List (List ℝ)) (derivative : Bool),
      PIcall par lower upper (⟨fun _ _ => .d2 m v, eta, g⟩ : PIModel ζ)
          X Z derivative = .error .UNBOUND_LOCAL) :=
  ⟨fun m v => piCall_in_d1 par lower upper _ X Z m v hX hin rfl,
   fun m v derivative => piCall_in_d2 par lower upper _ X Z m v derivative hX hin rfl⟩

/-- Witness for claim C10 with a 1-D and a (1,1)-shaped predictive mean. -/
theorem claim_C10_witness :
    ¬ 1 < ([[0.5]] : List (List ℝ)).length ∧
      ¬ outOfBounds [0] [1] [[0.5]] ∧
      PIcall 0.1 [0] [1]
          (⟨fun _ _ => .d1 [0.3] [1], 0, fun _ => ([], [])⟩ : PIModel Unit)
          [[0.5]] () false =
        .ok ([(piZ 0.1 0 [0.3] ([1].map Real.sqrt)).map cdfRF], none) ∧
      PIcall 0.1 [0] [1]
          (⟨fun _ _ => .d2 [[0.3]] [[1]], 0, fun _ => ([], [])⟩ : PIModel Unit)
          [[0.5]] () false = .error .UNBOUND_LOCAL := by
  have hin : ¬ outOfBounds [0] [1] [[0.5]] := by
    simp [outOfBounds, anyBelow, anyAbove]
    norm_num
  have h := @claim_C10_pi_unbound_local Unit 0.1 [0] [1] [[0.5]] () 0
    (fun _ => ([], [])) (by norm_num) hin
  exact ⟨by norm_num, hin, h.1 [0.3] [1], h.2 [[0.3]] [[1]] false⟩

lemma normpdf_pos (z : ℝ) : 0 < normpdf z := by
  unfold normpdf
  positivity

lemma normpdf_eq (z : ℝ) :
    normpdf z = Real.exp (-(1 / 2) * z ^ 2) / Real.sqrt (2 * Real.pi) := by
  unfold normpdf
  rw [show -(z ^ 2) / 2 = -(1 / 2) * z ^ 2 by ring]

lemma integrable_normpdf : Integrable normpdf := by
  have h := (integrable_exp_neg_mul_sq (by norm_num : (0 : ℝ) < 1 / 2)).div_const
    (Real.sqrt (2 * Real.pi))
  exact h.congr (Eventually.of_forall fun x => (normpdf_eq x).symm)

lemma integrable_mul_normpdf : Integrable (fun t => t * normpdf t) := by
  have h := (integrable_mul_exp_neg_mul_sq (by norm_num : (0 : ℝ) < 1 / 2)).div_const
    (Real.sqrt (2 * Real.pi))
  refine h.congr (Eventually.of_forall fun x => ?_)
  simp only
  rw [normpdf_eq]
  ring

lemma continuous_normpdf : Continuous normpdf := by
  unfold normpdf
  fun_prop

lemma support_normpdf : Function.support normpdf = univ := by
  ext x
  simp [Function.mem_support, (normpdf_pos x).ne']

lemma normcdf_pos (z : ℝ) : 0 < normcdf z := by
  unfold normcdf
  rw [setIntegral_pos_iff_support_of_nonneg_ae
    (Eventually.of_forall fun t => (normpdf_pos t).le) integrable_normpdf.integrableOn]
  rw [support_normpdf, univ_inter, Real.volume_Iic]
  exact ENNReal.zero_lt_top

lemma normcdf_add_integral {x y : ℝ} (h : x ≤ y) :
    normcdf y = normcdf x + ∫ t in Ioc x y, normpdf t := by
  unfold normcdf
  rw [← Iic_union_Ioc_eq_Iic h,
    setIntegral_union (Iic_disjoint_Ioc le_rfl) measurableSet_Ioc
      integrable_normpdf.integrableOn integrable_normpdf.integrableOn]

lemma integral_Ioc_normpdf_pos {x y : ℝ} (h : x < y) :
    0 < ∫ t in Ioc x y, normpdf t := by
  rw [setIntegral_pos_iff_support_of_nonneg_ae
    (Eventually.of_forall fun t => (normpdf_pos t).le) integrable_normpdf.integrableOn]
  rw [support_normpdf, univ_inter, Real.volume_Ioc]
  simp [ENNReal.ofReal_pos, sub_pos, h]

lemma normcdf_strictMono : StrictMono normcdf := by
  intro x y h
  rw [normcdf_add_integral h.le]
  linarith [integral_Ioc_normpdf_pos h]

lemma integral_normpdf : ∫ t, normpdf t = 1 := by
  have h : ∫ t : ℝ, Real.exp (-(1 / 2) * t ^ 2) = Real.sqrt (Real.pi / (1 / 2)) :=
    integral_gaussian (1 / 2)
  rw [show normpdf = fun t => Real.exp (-(1 / 2) * t ^ 2) / Real.sqrt (2 * Real.pi)
      from funext fun t => normpdf_eq t,
    integral_div, h, show Real.pi / (1 / 2) = 2 * Real.pi by ring]
  exact div_self (Real.sqrt_ne_zero'.mpr (by positivity))

lemma normpdf_neg (t : ℝ) : normpdf (-t) = normpdf t := by
  unfold normpdf
  rw [neg_pow]
  norm_num

lemma normcdf_zero : normcdf 0 = 1 / 2 := by
  have hsplit : normcdf 0 + ∫ t in Ioi (0 : ℝ), normpdf t = 1 := by
    unfold normcdf
    rw [show Ioi (0 : ℝ) = (Iic 0)ᶜ by simp,
      integral_add_compl measurableSet_Iic integrable_normpdf, integral_normpdf]
  have hsym : ∫ t in Ioi (0 : ℝ), normpdf t = normcdf 0 := by
    unfold normcdf
    rw [show (∫ t in Iic (0 : ℝ), normpdf t) = ∫ t in Iic (0 : ℝ), normpdf (-t)
        from setIntegral_congr_fun measurableSet_Iic fun t _ => (normpdf_neg t).symm,
      integral_comp_neg_Iic, neg_zero]
  linarith

lemma tendsto_sq_atBot : Tendsto (fun t : ℝ => t ^ 2) atBot atTop := by
  have h := (tendsto_pow_atTop (by norm_num : 2 ≠ 0)).comp
    (tendsto_neg_atBot_atTop : Tendsto (Neg.neg : ℝ → ℝ) atBot atTop)
  refine h.congr fun t => ?_
  simp [neg_sq]

lemma tendsto_normpdf_atBot : Tendsto normpdf atBot (𝓝 0) := by
  have h1 : Tendsto (fun t : ℝ => -(t ^ 2) / 2) atBot atBot :=
    Tendsto.atBot_div_const (by norm_num)
      (tendsto_neg_atTop_atBot.comp tendsto_sq_atBot)
  have h2 : Tendsto (fun t : ℝ => Real.exp (-(t ^ 2) / 2)) atBot (𝓝 0) :=
    Real.tendsto_exp_atBot.comp h1
  have h3 := h2.div_const (Real.sqrt (2 * Real.pi))
  rw [zero_div] at h3
  exact h3

lemma hasDerivAt_neg_sq_half (x : ℝ) :
    HasDerivAt (fun t : ℝ => -(t ^ 2) / 2) (-x) x := by
  have h := ((hasDerivAt_pow 2 x).neg).div_const 2
  convert h using 1
  push_cast
  ring

lemma hasDerivAt_normpdf (x : ℝ) : HasDerivAt normpdf (-(x * normpdf x)) x := by
  have h3 := ((hasDerivAt_neg_sq_half x).exp).div_const (Real.sqrt (2 * Real.pi))
  have hfun : normpdf = fun t : ℝ => Real.exp (-(t ^ 2) / 2) / Real.sqrt (2 * Real.pi) := rfl
  rw [hfun]
  convert h3 using 1
  simp only
  ring

lemma integral_Iic_mul_normpdf (z : ℝ) :
    ∫ t in Iic z, t * normpdf t = -normpdf z := by
  have hderiv : ∀ x ∈ Iic z, HasDerivAt (fun t => -normpdf t) (x * normpdf x) x := by
    intro x _
    simpa using (hasDerivAt_normpdf x).neg
  have htend : Tendsto (fun t => -normpdf t) atBot (𝓝 0) := by
    simpa using tendsto_normpdf_atBot.neg
  have h := integral_Iic_of_hasDerivAt_of_tendsto' hderiv
    integrable_mul_normpdf.integrableOn htend
  simpa using h

lemma normcdf_lt_of_neg {z : ℝ} (hz : z < 0) : normcdf z < normpdf z / (-z) := by
  have hint1 : IntegrableOn (fun t => t * normpdf t / z) (Iic z) volume :=
    (integrable_mul_normpdf.div_const z).integrableOn
  have hint2 : IntegrableOn normpdf (Iic z) volume := integrable_normpdf.integrableOn
  have hnn : ∀ t ∈ Iic z, 0 ≤ t * normpdf t / z - normpdf t := by
    intro t ht
    have h1 : 1 ≤ t / z := (one_le_div_of_neg hz).mpr ht
    rw [show t * normpdf t / z - normpdf t = (t / z - 1) * normpdf t by ring]
    exact mul_nonneg (by linarith) (normpdf_pos t).le
  have hpos : 0 < ∫ t in Iic z, (t * normpdf t / z - normpdf t) := by
    rw [setIntegral_pos_iff_support_of_nonneg_ae
      ((ae_restrict_iff' measurableSet_Iic).mpr (Eventually.of_forall hnn))
      (hint1.sub hint2)]
    have hsub : Iio z ⊆
        Function.support (fun t => t * normpdf t / z - normpdf t) ∩ Iic z := by
      intro t ht
      have htz : t < z := mem_Iio.mp ht
      refine ⟨?_, mem_Iic.mpr (le_of_lt htz)⟩
      have h1 : 1 < t / z := (one_lt_div_of_neg hz).mpr htz
      have h2 : t * normpdf t / z - normpdf t = (t / z - 1) * normpdf t := by ring
      simp only [Function.mem_support, h2]
      exact (mul_pos (by linarith) (normpdf_pos t)).ne'
    refine lt_of_lt_of_le ?_ (measure_mono hsub)
    rw [Real.volume_Iio]
    exact ENNReal.zero_lt_top
  have heq : ∫ t in Iic z, (t * normpdf t / z - normpdf t)
      = -normpdf z / z - normcdf z := by
    rw [integral_sub hint1 hint2, integral_div, integral_Iic_mul_normpdf]
    rfl
  rw [heq] at hpos
  rw [div_neg]
  have := neg_div z (normpdf z)
  linarith

lemma normg_pos (z : ℝ) : 0 < normg z := by
  unfold normg
  rcases le_or_lt 0 z with hz | hz
  · have h1 := normpdf_pos z
    have h2 := mul_nonneg hz (normcdf_pos z).le
    linarith
  · have h := normcdf_lt_of_neg hz
    have hzne : z ≠ 0 := ne_of_lt hz
    have h2 : z * (normpdf z / (-z)) < z * normcdf z :=
      mul_lt_mul_of_neg_left h hz
    have h3 : z * (normpdf z / (-z)) = -normpdf z := by
      have hnzne : (-z) ≠ 0 := neg_ne_zero.mpr hzne
      field_simp
      try ring
    linarith

lemma normcdf_eq_add_intervalIntegral (x : ℝ) :
    normcdf x = normcdf 0 + ∫ t in (0 : ℝ)..x, normpdf t := by
  have h : normcdf x - normcdf 0 = ∫ t in (0 : ℝ)..x, normpdf t :=
    intervalIntegral.integral_Iic_sub_Iic integrable_normpdf.integrableOn
      integrable_normpdf.integrableOn
  linarith

lemma hasDerivAt_normcdf (x : ℝ) : HasDerivAt normcdf (normpdf x) x := by
  have key : HasDerivAt (fun u => ∫ t in (0 : ℝ)..u, normpdf t) (normpdf x) x :=
    intervalIntegral.integral_hasDerivAt_right
      integrable_normpdf.intervalIntegrable
      continuous_normpdf.stronglyMeasurable.stronglyMeasurableAtFilter
      continuous_normpdf.continuousAt
  have hfun : normcdf = fun u => normcdf 0 + ∫ t in (0 : ℝ)..u, normpdf t :=
    funext fun u => normcdf_eq_add_intervalIntegral u
  rw [hfun]
  exact key.const_add _

lemma hasDerivAt_normg (x : ℝ) : HasDerivAt normg (normcdf x) x := by
  have h := ((hasDerivAt_id x).mul (hasDerivAt_normcdf x)).add (hasDerivAt_normpdf x)
  have hfun : normg = fun t => t * normcdf t + normpdf t := rfl
  rw [hfun]
  convert h using 1
  simp only [id_eq]
  ring

lemma normg_strictMono : StrictMono normg := by
  apply strictMono_of_deriv_pos
  intro x
  rw [(hasDerivAt_normg x).deriv]
  exact normcdf_pos x

lemma logsumexp_aux {x y : ℝ} (hx : 0 < x) (hy : 0 < y) (h : y ≤ x) :
    max (Real.log x) (Real.log y)
      + Real.log (1 + Real.exp (-|Real.log y - Real.log x|))
      = Real.log (x + y) := by
  have hlog : Real.log y ≤ Real.log x := (Real.log_le_log_iff hy hx).mpr h
  rw [max_eq_left hlog, abs_of_nonpos (by linarith), neg_neg, Real.exp_sub,
    Real.exp_log hx, Real.exp_log hy]
  rw [← Real.log_mul hx.ne' (by positivity : (0 : ℝ) < 1 + y / x).ne']
  congr 1
  field_simp

lemma logsumexp {x y : ℝ} (hx : 0 < x) (hy : 0 < y) :
    max (Real.log x) (Real.log y)
      + Real.log (1 + Real.exp (-|Real.log y - Real.log x|))
      = Real.log (x + y) := by
  rcases le_total y x with h | h
  · exact logsumexp_aux hx hy h
  · have := logsumexp_aux hy hx h
    rw [max_comm (Real.log y) (Real.log x),
      abs_sub_comm (Real.log x) (Real.log y), add_comm y x] at this
    exact this

lemma logdiffexp {x y : ℝ} (hy : 0 < y) (h : y < x) :
    Real.log x + Real.log (1 - Real.exp (Real.log y - Real.log x))
      = Real.log (x - y) := by
  have hx : 0 < x := hy.trans h
  have hyx : y / x < 1 := (div_lt_one hx).mpr h
  rw [Real.exp_sub, Real.exp_log hx, Real.exp_log hy,
    ← Real.log_mul hx.ne' (by linarith : (0 : ℝ) < 1 - y / x).ne']
  congr 1
  field_simp

lemma logEIEntry_pos_sigma (par eta mu sigma : ℝ) (hs : 0 < sigma) :
    logEIEntry par eta mu sigma =
      ((Real.log (sigma * normg ((eta - mu) / sigma - par)) : ℝ) : EReal) := by
  have hzc : eta - mu - par * sigma = sigma * ((eta - mu) / sigma - par) := by
    field_simp
    ring
  have hEI : sigma * normg ((eta - mu) / sigma - par)
      = (eta - mu - par * sigma) * normcdf ((eta - mu) / sigma - par)
        + sigma * normpdf ((eta - mu) / sigma - par) := by
    rw [normg, hzc]
    ring
  have hφ := normpdf_pos ((eta - mu) / sigma - par)
  have hΦ := normcdf_pos ((eta - mu) / sigma - par)
  have hEIpos : 0 < sigma * normg ((eta - mu) / sigma - par) :=
    mul_pos hs (normg_pos _)
  simp only [logEIEntry]
  by_cases habs : |eta - mu - par * sigma| = 0
  · rw [if_pos habs, if_pos hs]
    have hc0 : eta - mu - par * sigma = 0 := abs_eq_zero.mp habs
    rw [normlogpdf, ← Real.log_mul hs.ne' hφ.ne']
    rw [show sigma * normpdf ((eta - mu) / sigma - par)
        = sigma * normg ((eta - mu) / sigma - par) by rw [hEI, hc0]; ring]
  · rw [if_neg habs, if_neg hs.ne']
    by_cases hgt : eta - par * sigma > mu
    · rw [if_pos hgt]
      have hcpos : 0 < eta - mu - par * sigma := by linarith
      rw [normlogcdf, normlogpdf,
        ← Real.log_mul hcpos.ne' hΦ.ne', ← Real.log_mul hs.ne' hφ.ne',
        logsumexp (mul_pos hcpos hΦ) (mul_pos hs hφ)]
      rw [show (eta - mu - par * sigma) * normcdf ((eta - mu) / sigma - par)
          + sigma * normpdf ((eta - mu) / sigma - par)
          = sigma * normg ((eta - mu) / sigma - par) from hEI.symm]
    · rw [if_neg hgt]
      have hcne : eta - mu - par * sigma ≠ 0 := fun hcontr => habs (by rw [hcontr]; simp)
      have hcneg : eta - mu - par * sigma < 0 :=
        lt_of_le_of_ne (by push_neg at hgt; linarith) hcne
      have hmc : 0 < mu - eta + par * sigma := by linarith
      have hlt : (mu - eta + par * sigma) * normcdf ((eta - mu) / sigma - par)
          < sigma * normpdf ((eta - mu) / sigma - par) := by
        have hrw : (mu - eta + par * sigma) * normcdf ((eta - mu) / sigma - par)
            = -((eta - mu - par * sigma) * normcdf ((eta - mu) / sigma - par)) := by
          ring
        rw [hrw]
        linarith [hEIpos, hEI]
      have hba : Real.log (mu - eta + par * sigma)
            + normlogcdf ((eta - mu) / sigma - par)
          < Real.log sigma + normlogpdf ((eta - mu) / sigma - par) := by
        rw [normlogcdf, normlogpdf,
          ← Real.log_mul hmc.ne' hΦ.ne', ← Real.log_mul hs.ne' hφ.ne']
        exact Real.log_lt_log (mul_pos hmc hΦ) hlt
      rw [if_neg (not_le.mpr hba)]
      rw [normlogcdf, normlogpdf,
        ← Real.log_mul hmc.ne' hΦ.ne', ← Real.log_mul hs.ne' hφ.ne',
        logdiffexp (mul_pos hmc hΦ) hlt]
      rw [show sigma * normpdf ((eta - mu) / sigma - par)
          - (mu - eta + par * sigma) * normcdf ((eta - mu) / sigma - par)
          = sigma * normg ((eta - mu) / sigma - par) by rw [hEI]; ring]

lemma EIplain_eq (par eta mu sigma : ℝ) (hs : sigma ≠ 0) :
    EIplain par eta mu sigma = sigma * normg ((eta - mu) / sigma - par) := by
  rw [EIplain, normg, show eta - mu - par * sigma
    = sigma * ((eta - mu) / sigma - par) by field_simp; ring]
  ring

lemma normpdf_zero_eq : normpdf 0 = 1 / Real.sqrt (2 * Real.pi) := by
  unfold normpdf
  norm_num

lemma normpdf_zero_lt : normpdf 0 < 3 / 7 := by
  rw [normpdf_zero_eq]
  have h : (7 : ℝ) / 3 < Real.sqrt (2 * Real.pi) := by
    rw [show (7 : ℝ) / 3 = Real.sqrt ((7 / 3) ^ 2) from (Real.sqrt_sq (by norm_num)).symm]
    apply Real.sqrt_lt_sqrt (by positivity)
    nlinarith [Real.pi_gt_three]
  rw [div_lt_div_iff (by positivity) (by norm_num)]
  linarith

lemma integral_Ioc_one_sub_half_sq :
    ∫ t in Ioc (0 : ℝ) 1, (1 - t ^ 2 / 2) = 5 / 6 := by
  rw [← intervalIntegral.integral_of_le (by norm_num : (0 : ℝ) ≤ 1)]
  have h1 : IntervalIntegrable (fun _ : ℝ => (1 : ℝ)) volume 0 1 :=
    intervalIntegrable_const
  have h2 : IntervalIntegrable (fun t : ℝ => t ^ 2 / 2) volume 0 1 :=
    (intervalIntegral.intervalIntegrable_pow 2).div_const 2
  rw [intervalIntegral.integral_sub h1 h2, intervalIntegral.integral_div]
  rw [integral_pow]
  simp
  norm_num

lemma normcdf_one_lower : 1 / 2 + 5 / 6 * normpdf 0 ≤ normcdf 1 := by
  have hmono : ∀ t ∈ Ioc (0 : ℝ) 1, normpdf 0 * (1 - t ^ 2 / 2) ≤ normpdf t := by
    intro t _
    have hexp : 1 - t ^ 2 / 2 ≤ Real.exp (-(t ^ 2) / 2) := by
      have := Real.add_one_le_exp (-(t ^ 2) / 2)
      linarith
    rw [show normpdf 0 * (1 - t ^ 2 / 2)
        = (1 - t ^ 2 / 2) / Real.sqrt (2 * Real.pi) by rw [normpdf_zero_eq]; ring]
    unfold normpdf
    exact (div_le_div_right (by positivity)).mpr hexp
  have hint1 : IntegrableOn (fun t : ℝ => normpdf 0 * (1 - t ^ 2 / 2)) (Ioc 0 1) volume :=
    (by fun_prop : Continuous fun t : ℝ => normpdf 0 * (1 - t ^ 2 / 2)).integrableOn_Ioc
  have hint2 : IntegrableOn normpdf (Ioc 0 1) volume := integrable_normpdf.integrableOn
  have hle := setIntegral_mono_on hint1 hint2 measurableSet_Ioc hmono
  have hcalc : ∫ t in Ioc (0 : ℝ) 1, normpdf 0 * (1 - t ^ 2 / 2)
      = normpdf 0 * (5 / 6) := by
    rw [integral_mul_left, integral_Ioc_one_sub_half_sq]
  have hsplit := normcdf_add_integral (by norm_num : (0 : ℝ) ≤ 1)
  rw [normcdf_zero] at hsplit
  rw [hcalc] at hle
  linarith

lemma normg_zero : normg 0 = normpdf 0 := by
  unfold normg
  simp

lemma normg_one : normg 1 = normcdf 1 + normpdf 1 := by
  unfold normg
  rw [one_mul]

lemma normg_half_ineq : 1 * normg 0 < 1 / 2 * normg 1 := by
  rw [one_mul, normg_zero, normg_one]
  have h1 := normcdf_one_lower
  have h2 := normpdf_zero_lt
  have h3 := normpdf_pos 1
  linarith

lemma notOut_half : ¬ outOfBounds [0] [1] [[0.5]] := by
  simp [outOfBounds, anyBelow, anyAbove]
  norm_num

/-- Claim C1: for an in-bounds single candidate with positive variance and
nonzero coefficient, exp applied to the LogEI result equals the plain-space
Expected Improvement (eta - m - par*s)*Phi(z) + s*phi(z): the log-sum-exp /
log-difference-exp branches compute exactly its logarithm. -/
theorem claim_C1_log_domain_consistency {ζ : Type} (par : ℝ) (lower upper : List ℝ)
    (X : List (List ℝ)) (Z : ζ) (eta mu v : ℝ)
    (hin : ¬ outOfBounds lower upper X) (hv : 0 < v)
    (hc : eta - mu - par * Real.sqrt v ≠ 0) :
    ∃ r : ℝ,
      LogEIcall par lower upper (⟨fun _ _ => ([mu], [v]), eta⟩ : GPModel ζ) X Z false =
        .ok [[(r : EReal)]] ∧
      Real.exp r = EIplain par eta mu (Real.sqrt v) := by
  have hs : 0 < Real.sqrt v := Real.sqrt_pos.mpr hv
  refine ⟨Real.log (Real.sqrt v * normg ((eta - mu) / Real.sqrt v - par)), ?_, ?_⟩
  · rw [logEIcall_in par lower upper _ X Z hin]
    simp only [logEIVec, List.zip_cons_cons, List.zip_nil_right, List.map_cons,
      List.map_nil]
    rw [logEIEntry_pos_sigma par eta mu (Real.sqrt v) hs]
  · rw [Real.exp_log (mul_pos hs (normg_pos _)), EIplain_eq par eta mu _ hs.ne']

/-- Witness for claim C1 with variance 1, exercising the general branch. -/
theorem claim_C1_witness :
    ¬ outOfBounds [0] [1] [[0.5]] ∧ (0 : ℝ) < 1 ∧
      ((0 : ℝ) - 0 - 1 * Real.sqrt 1 ≠ 0) ∧
      (∃ r : ℝ,
        LogEIcall 1 [0] [1] (⟨fun _ _ => ([0], [1]), 0⟩ : GPModel Unit)
          [[0.5]] () false = .ok [[(r : EReal)]] ∧
        Real.exp r = EIplain 1 0 0 (Real.sqrt 1)) := by
  refine ⟨notOut_half, by norm_num, by rw [Real.sqrt_one]; norm_num, ?_⟩
  exact claim_C1_log_domain_consistency 1 [0] [1] [[0.5]] () 0 0 1 notOut_half
    (by norm_num) (by rw [Real.sqrt_one]; norm_num)

lemma logEIEntry_sigma_zero_total (par eta mu : ℝ) :
    logEIEntry par eta mu 0 =
      (if mu < eta then ((Real.log (eta - mu) : ℝ) : EReal) else (⊥ : EReal)) := by
  simp only [logEIEntry, mul_zero, sub_zero]
  split_ifs <;> first
    | rfl
    | simp_all [abs_eq_zero, sub_eq_zero]

lemma logEIEntry_anti {m₁ m₂ : ℝ} (par eta sigma : ℝ) (hσ : 0 ≤ sigma)
    (hm : m₁ ≤ m₂) :
    logEIEntry par eta m₂ sigma ≤ logEIEntry par eta m₁ sigma := by
  rcases eq_or_lt_of_le hσ with h0 | hs
  · rw [← h0, logEIEntry_sigma_zero_total, logEIEntry_sigma_zero_total]
    split_ifs with h1 h2
    · exact EReal.coe_le_coe_iff.mpr
        ((Real.log_le_log_iff (by linarith) (by linarith)).mpr (by linarith))
    · exact absurd (lt_of_le_of_lt hm h1) h2
    · exact bot_le
    · exact bot_le
  · rw [logEIEntry_pos_sigma par eta m₁ sigma hs,
      logEIEntry_pos_sigma par eta m₂ sigma hs]
    apply EReal.coe_le_coe_iff.mpr
    have hz : (eta - m₂) / sigma - par ≤ (eta - m₁) / sigma - par := by
      apply sub_le_sub_right
      exact (div_le_div_right hs).mpr (by linarith)
    exact (Real.log_le_log_iff (mul_pos hs (normg_pos _)) (mul_pos hs (normg_pos _))).mpr
      (mul_le_mul_of_nonneg_left (normg_strictMono.monotone hz) hs.le)

lemma notOut_c8 : ¬ outOfBounds [-2] [2] [[0]] := by
  simp [outOfBounds, anyBelow, anyAbove]

/-- Claim C8, amended: holding variance, incumbent and margin fixed, a
larger predictive mean never yields a larger score — LogEI for every
variance, PI for positive variance.  The claimed monotonicity in s fails
(see the counterexample), so it is dropped here. -/
theorem claim_C8_monotone_in_mean {ζ : Type} (parL parP : ℝ)
    (lower upper : List ℝ) (X : List (List ℝ)) (Z : ζ) (eta m₁ m₂ v : ℝ)
    (g : List (List ℝ) → List ℝ × List ℝ)
    (hin : ¬ outOfBounds lower upper X) (hm : m₁ ≤ m₂) :
    (∃ e₁ e₂ : EReal,
      LogEIcall parL lower upper (⟨fun _ _ => ([m₁], [v]), eta⟩ : GPModel ζ)
          X Z false = .ok [[e₁]] ∧
      LogEIcall parL lower upper (⟨fun _ _ => ([m₂], [v]), eta⟩ : GPModel ζ)
          X Z false = .ok [[e₂]] ∧ e₂ ≤ e₁) ∧
    (0 < v → ¬ 1 < X.length →
      ∃ p₁ p₂ : ℝ,
        PIcall parP lower upper (⟨fun _ _ => .d1 [m₁] [v], eta, g⟩ : PIModel ζ)
            X Z false = .ok ([[RF.fin p₁]], none) ∧
        PIcall parP lower upper (⟨fun _ _ => .d1 [m₂] [v], eta, g⟩ : PIModel ζ)
            X Z false = .ok ([[RF.fin p₂]], none) ∧ p₂ ≤ p₁) := by
  constructor
  · refine ⟨logEIEntry parL eta m₁ (Real.sqrt v),
      logEIEntry parL eta m₂ (Real.sqrt v), ?_, ?_, ?_⟩
    · rw [logEIcall_in parL lower upper _ X Z hin]
      simp [logEIVec]
    · rw [logEIcall_in parL lower upper _ X Z hin]
      simp [logEIVec]
    · exact logEIEntry_anti parL eta (Real.sqrt v) (Real.sqrt_nonneg v) hm
  · intro hv hX
    have hs : 0 < Real.sqrt v := Real.sqrt_pos.mpr hv
    refine ⟨normcdf ((eta - m₁ - parP) / Real.sqrt v),
      normcdf ((eta - m₂ - parP) / Real.sqrt v), ?_, ?_, ?_⟩
    · rw [piCall_in_d1 parP lower upper _ X Z [m₁] [v] hX hin rfl]
      simp [piZ, fdiv, cdfRF, hs.ne']
    · rw [piCall_in_d1 parP lower upper _ X Z [m₂] [v] hX hin rfl]
      simp [piZ, fdiv, cdfRF, hs.ne']
    · apply normcdf_strictMono.monotone
      exact (div_le_div_right hs).mpr (by linarith)

/-- Witness for the amended claim C8 at concrete means 0.2 ≤ 0.3, v = 1. -/
theorem claim_C8_witness :
    ¬ outOfBounds [0] [1] [[0.5]] ∧ (0.2 : ℝ) ≤ 0.3 ∧
      ((∃ e₁ e₂ : EReal,
        LogEIcall 1 [0] [1] (⟨fun _ _ => ([0.2], [1]), 0⟩ : GPModel Unit)
            [[0.5]] () false = .ok [[e₁]] ∧
        LogEIcall 1 [0] [1] (⟨fun _ _ => ([0.3], [1]), 0⟩ : GPModel Unit)
            [[0.5]] () false = .ok [[e₂]] ∧ e₂ ≤ e₁) ∧
      ((0 : ℝ) < 1 → ¬ 1 < ([[0.5]] : List (List ℝ)).length →
        ∃ p₁ p₂ : ℝ,
          PIcall 0.1 [0] [1]
              (⟨fun _ _ => .d1 [0.2] [1], 0, fun _ => ([], [])⟩ : PIModel Unit)
              [[0.5]] () false = .ok ([[RF.fin p₁]], none) ∧
          PIcall 0.1 [0] [1]
              (⟨fun _ _ => .d1 [0.3] [1], 0, fun _ => ([], [])⟩ : PIModel Unit)
              [[0.5]] () false = .ok ([[RF.fin p₂]], none) ∧ p₂ ≤ p₁)) :=
  ⟨notOut_half, by norm_num,
    claim_C8_monotone_in_mean 1 0.1 [0] [1] [[0.5]] () 0 0.2 0.3 1
      (fun _ => ([], [])) notOut_half (by norm_num)⟩

/-- Claim C8 as stated is false: with par = 1, eta = 0, m = -1 fixed,
raising the variance from 1/4 to 1 strictly lowers LogEI, and with
par = 0.1, eta = 0, m = -1.1 fixed, raising the variance from 1 to 4
strictly lowers PI — neither evaluator is non-decreasing in s away from
s = 0. -/
theorem claim_C8_counterexample :
    (∃ e₁ e₂ : EReal,
      LogEIcall 1 [-2] [2] (⟨fun _ _ => ([-1], [1 / 4]), 0⟩ : GPModel Unit)
          [[0]] () false = .ok [[e₁]] ∧
      LogEIcall 1 [-2] [2] (⟨fun _ _ => ([-1], [1]), 0⟩ : GPModel Unit)
          [[0]] () false = .ok [[e₂]] ∧ e₂ < e₁) ∧
    (∃ p₁ p₂ : ℝ,
      PIcall 0.1 [-2] [2]
          (⟨fun _ _ => .d1 [-1.1] [1], 0, fun _ => ([], [])⟩ : PIModel Unit)
          [[0]] () false = .ok ([[RF.fin p₁]], none) ∧
      PIcall 0.1 [-2] [2]
          (⟨fun _ _ => .d1 [-1.1] [4], 0, fun _ => ([], [])⟩ : PIModel Unit)
          [[0]] () false = .ok ([[RF.fin p₂]], none) ∧ p₂ < p₁) := by
  have hs14 : Real.sqrt (1 / 4) = 1 / 2 := by
    rw [show (1 / 4 : ℝ) = (1 / 2) ^ 2 by norm_num, Real.sqrt_sq (by norm_num)]
  have hs4 : Real.sqrt 4 = 2 := by
    rw [show (4 : ℝ) = 2 ^ 2 by norm_num, Real.sqrt_sq (by norm_num)]
  constructor
  · refine ⟨((Real.log (1 / 2 * normg 1) : ℝ) : EReal),
      ((Real.log (1 * normg 0) : ℝ) : EReal), ?_, ?_, ?_⟩
    · rw [logEIcall_in 1 [-2] [2] _ [[0]] () notOut_c8]
      simp only [logEIVec, List.zip_cons_cons, List.zip_nil_right, List.map_cons,
        List.map_nil]
      rw [hs14, logEIEntry_pos_sigma 1 0 (-1) (1 / 2) (by norm_num)]
      norm_num
    · rw [logEIcall_in 1 [-2] [2] _ [[0]] () notOut_c8]
      simp only [logEIVec, List.zip_cons_cons, List.zip_nil_right, List.map_cons,
        List.map_nil]
      rw [Real.sqrt_one, logEIEntry_pos_sigma 1 0 (-1) 1 one_pos]
      norm_num
    · exact EReal.coe_lt_coe_iff.mpr
        (Real.log_lt_log (by simpa using normg_pos 0) normg_half_ineq)
  · refine ⟨normcdf 1, normcdf (1 / 2), ?_, ?_, ?_⟩
    · rw [piCall_in_d1 0.1 [-2] [2] _ [[0]] () [-1.1] [1] (by norm_num) notOut_c8 rfl]
      norm_num [piZ, fdiv, cdfRF, Real.sqrt_one]
    · rw [piCall_in_d1 0.1 [-2] [2] _ [[0]] () [-1.1] [4] (by norm_num) notOut_c8 rfl]
      rw [show ([4] : List ℝ).map Real.sqrt = [2] by rw [List.map_cons, List.map_nil, hs4]]
      norm_num [piZ, fdiv, cdfRF]
    · exact normcdf_strictMono (by norm_num)

end RoBO
